import Mathlib

/-!
Verification of the RAT compressed vertex-animation codec (`rat_handler.c` /
`rat_handler.h`).

The C code is shallowly embedded: machine integers become `Nat` (with explicit
`% 2 ^ 32` / `% 256` where 32-bit or 8-bit wrap-around matters), `float` fields
become exact rationals `ℚ`, heap arrays become `List`s indexed with `getD`
(mirroring `a[i]` reads), in-place writes become `List.set`, and the two file
parsers become pure functions from byte lists to `Except`.
-/

namespace RatHandler

/-- 2 ^ 32, the modulus of `uint32_t` arithmetic. -/
def two32 : Nat := 2 ^ 32

/-! ## Bitstream helpers (rat_handler.c lines 361-390) -/

/-- The C expression `(1U << n) - 1` in `uint32_t` arithmetic: the shift result
is truncated to 32 bits and the subtraction wraps. -/
def mask32 (n : Nat) : Nat := ((1 <<< n) % two32 + (two32 - 1)) % two32

/-- `get_bits` (lines 361-381).  `data` is the packed word array, the pair
returned is `(value, new bit_offset)`: the C function returns the value and
advances `*bit_offset` in place.  `word_index` is a `uint32_t` in the source,
hence the truncation. -/
def get_bits (data : List Nat) (bit_offset : Nat) (num_bits : Nat) : Nat × Nat :=
  if num_bits = 0 then (0, bit_offset)
  else
    let word_index := (bit_offset / 32) % two32
    let bit_index := bit_offset % 32
    let value :=
      if bit_index + num_bits ≤ 32 then
        (data.getD word_index 0 >>> bit_index) &&& mask32 num_bits
      else
        let part1 := data.getD word_index 0 >>> bit_index
        let part1_len := 32 - bit_index
        let part2_len := num_bits - part1_len
        let part2 := data.getD (word_index + 1) 0 &&& mask32 part2_len
        part1 ||| ((part2 <<< part1_len) % two32)
    (value, bit_offset + num_bits)

/-- The C cast `(int32_t)v` of a `uint32_t` value: values at or above `2 ^ 31`
wrap to negative. -/
def toInt32 (v : Nat) : Int :=
  if v % two32 < 2 ^ 31 then ((v % two32 : Nat) : Int)
  else ((v % two32 : Nat) : Int) - (two32 : Int)

/-- `sign_extend` (lines 383-390).  `~0U` is `2 ^ 32 - 1`. -/
def sign_extend (value : Nat) (num_bits : Nat) : Int :=
  if num_bits = 0 then 0
  else
    let sign_bit := (1 <<< (num_bits - 1)) % two32
    if value &&& sign_bit ≠ 0 then
      toInt32 (value ||| (((two32 - 1) <<< num_bits) % two32))
    else
      toInt32 value

/-! ## Runtime data structures (rat_handler.h) -/

/-- `VertexU8`: a quantized vertex position, one byte per axis. -/
structure VertexU8 where
  x : Nat
  y : Nat
  z : Nat
deriving DecidableEq, Repr

/-- `RatAnimation`: the in-memory animation record.  The `float` bounds are
modelled as exact rationals. -/
structure RatAnimation where
  num_vertices : Nat
  num_frames : Nat
  min_x : ℚ
  min_y : ℚ
  min_z : ℚ
  max_x : ℚ
  max_y : ℚ
  max_z : ℚ
  first_frame_quantized : List VertexU8
  first_frame_raw : List (ℚ × ℚ × ℚ)
  is_first_frame_raw : Bool
  bit_widths_x : List Nat
  bit_widths_y : List Nat
  bit_widths_z : List Nat
  delta_stream : List Nat
deriving DecidableEq

/-- `RatModel` (rat_handler.h): the runtime model object.  `current_frame` is a
`uint32_t`; the `-1` sentinel assigned at creation is `4294967295`. -/
structure RatModel where
  animation : Option RatAnimation
  decompressed_vertices_u8 : List VertexU8
  current_frame_vertices : List (ℚ × ℚ × ℚ)
  current_frame : Nat
  is_valid : Bool
deriving DecidableEq

/-! ## Frame decompression (rat_handler.c lines 300-357) -/

/-- The C cast `(uint8_t)q` of a float quantization result, modelled on `ℚ`:
truncation of the scaled value, reduced mod 256 (the cast is undefined outside
`[0, 256)`; the model totalizes it by wrapping and clamping negatives to 0). -/
def floatToU8 (q : ℚ) : Nat := (Int.toNat q.floor) % 256

/-- One vertex of the base-frame quantization (lines 308-310):
`(uint8_t)(255.0f * (raw - min) / (max - min))` per axis. -/
def quantizeVertex (anim : RatAnimation) (p : ℚ × ℚ × ℚ) : VertexU8 :=
  { x := floatToU8 (255 * (p.1 - anim.min_x) / (anim.max_x - anim.min_x))
    y := floatToU8 (255 * (p.2.1 - anim.min_y) / (anim.max_y - anim.min_y))
    z := floatToU8 (255 * (p.2.2 - anim.min_z) / (anim.max_z - anim.min_z)) }

/-- Seeding of the scratch buffer with frame 0 (lines 304-315, duplicated at
lines 322-331): either quantize the raw base frame in place, or copy the
pre-quantized base frame (`memcpy` of `num_vertices` entries). -/
def seedFirstFrame (anim : RatAnimation) (scratch : List VertexU8) : List VertexU8 :=
  if anim.is_first_frame_raw then
    (List.range anim.num_vertices).foldl
      (fun buf i => buf.set i (quantizeVertex anim (anim.first_frame_raw.getD i (0, 0, 0)))) scratch
  else
    (List.range anim.num_vertices).foldl
      (fun buf i => buf.set i (anim.first_frame_quantized.getD i ⟨0, 0, 0⟩)) scratch

/-- `prev_frame[i].x += dx` on a `uint8_t` component: 8-bit wrapping addition
of a signed 32-bit delta. -/
def add8 (c : Nat) (d : Int) : Nat := (((c : Int) + d).emod 256).toNat

/-- The inner loop body of the delta replay (lines 336-342): read three signed
deltas for vertex `i` from the shared bit cursor and add them to the vertex,
wrapping mod 256.  State is `(buffer, bit_offset)`. -/
def applyVertexDeltas (anim : RatAnimation) (st : List VertexU8 × Nat) (i : Nat) :
    List VertexU8 × Nat :=
  let bwx := anim.bit_widths_x.getD i 0
  let bwy := anim.bit_widths_y.getD i 0
  let bwz := anim.bit_widths_z.getD i 0
  let rx := get_bits anim.delta_stream st.2 bwx
  let dx := sign_extend rx.1 bwx
  let ry := get_bits anim.delta_stream rx.2 bwy
  let dy := sign_extend ry.1 bwy
  let rz := get_bits anim.delta_stream ry.2 bwz
  let dz := sign_extend rz.1 bwz
  let v := st.1.getD i ⟨0, 0, 0⟩
  (st.1.set i ⟨add8 v.x dx, add8 v.y dy, add8 v.z dz⟩, rz.2)

/-- One frame's worth of deltas (the `for i` loop at line 335). -/
def applyFrameDeltas (anim : RatAnimation) (st : List VertexU8 × Nat) : List VertexU8 × Nat :=
  (List.range anim.num_vertices).foldl (applyVertexDeltas anim) st

/-- The quantized-state part of `decompress_frame` (lines 304-345): seed with
frame 0, then for `f = 1 .. frame_index` apply one frame of deltas, with the
shared bit cursor starting at 0. -/
def decompressQuantized (anim : RatAnimation) (scratch : List VertexU8) (frame_index : Nat) :
    List VertexU8 :=
  if frame_index = 0 then seedFirstFrame anim scratch
  else ((applyFrameDeltas anim)^[frame_index] (seedFirstFrame anim scratch, 0)).1

/-- De-quantization into the float vertex buffer (lines 347-356):
`min + (q / 255) * (max - min)` per axis, overwriting `current_frame_vertices`. -/
def dequantizeInto (anim : RatAnimation) (old : List (ℚ × ℚ × ℚ)) (q : List VertexU8) :
    List (ℚ × ℚ × ℚ) :=
  (List.range anim.num_vertices).foldl
    (fun buf i =>
      buf.set i
        (anim.min_x + (((q.getD i ⟨0, 0, 0⟩).x : ℚ) / 255) * (anim.max_x - anim.min_x),
         anim.min_y + (((q.getD i ⟨0, 0, 0⟩).y : ℚ) / 255) * (anim.max_y - anim.min_y),
         anim.min_z + (((q.getD i ⟨0, 0, 0⟩).z : ℚ) / 255) * (anim.max_z - anim.min_z))) old

/-- `decompress_frame` (lines 300-357): returns the new contents of the two
model buffers `decompressed_vertices_u8` and `current_frame_vertices`, given
their previous contents (the C function overwrites them in place). -/
def decompress_frame (anim : RatAnimation) (scratchU8 : List VertexU8)
    (scratchV : List (ℚ × ℚ × ℚ)) (frame_index : Nat) :
    List VertexU8 × List (ℚ × ℚ × ℚ) :=
  let q := decompressQuantized anim scratchU8 frame_index
  (q, dequantizeInto anim scratchV q)

/-- The divisors of the divisions executed while seeding the base frame
(lines 307-311 / 324-328): three per vertex when the base frame is raw, none
when it is pre-quantized (the `memcpy` branch divides nothing). -/
def quantizationDivisors (anim : RatAnimation) : List ℚ :=
  if anim.is_first_frame_raw then
    (List.range anim.num_vertices).flatMap
      (fun _ => [anim.max_x - anim.min_x, anim.max_y - anim.min_y, anim.max_z - anim.min_z])
  else []

/-- The divisors of the divisions executed while de-quantizing (lines 352-356):
each component is divided by the constant `255.0f` only. -/
def dequantizationDivisors (anim : RatAnimation) : List ℚ :=
  (List.range anim.num_vertices).flatMap (fun _ => [(255 : ℚ), 255, 255])

/-! ## Model lifecycle (rat_handler.c lines 104-168) -/

/-- `rat_model_get_chunk_frame_count` (lines 161-168), on a nullable handle. -/
def rat_model_get_chunk_frame_count : Option RatModel → Nat
  | none => 0
  | some m =>
    match m.animation with
    | none => 0
    | some anim => if anim.num_vertices = 0 then 0 else anim.num_frames

/-- The clamping step of `rat_model_update` (lines 110-113): a frame index at
or past `frame_count` becomes `frame_count - 1`, or 0 when `frame_count` is 0. -/
def clampFrame (frame_count local_frame : Nat) : Nat :=
  if frame_count ≤ local_frame then (if 0 < frame_count then frame_count - 1 else 0)
  else local_frame

/-- `rat_model_update` (lines 104-121), on a nullable handle.  The source
dereferences `model->animation` unconditionally inside `decompress_frame`; a
valid model always has an animation, so the `none` case (a null-pointer
dereference in C) is modelled as a no-op and excluded by hypothesis in every
theorem below. -/
def rat_model_update : Option RatModel → Nat → Option RatModel
  | none, _ => none
  | some m, local_frame =>
    if m.is_valid = false ∨ local_frame = m.current_frame then some m
    else
      match m.animation with
      | none => some m
      | some anim =>
        let lf := clampFrame (rat_model_get_chunk_frame_count (some m)) local_frame
        let r := decompress_frame anim m.decompressed_vertices_u8 m.current_frame_vertices lf
        some { m with
          decompressed_vertices_u8 := r.1
          current_frame_vertices := r.2
          current_frame := lf }

/-- Frame index that the clamping rule targets: `frame_count - 1`, or 0 when
`frame_count == 0`. -/
def lastFrameTarget (m : RatModel) : Nat :=
  if rat_model_get_chunk_frame_count (some m) = 0 then 0
  else rat_model_get_chunk_frame_count (some m) - 1

/-! ## File format parsers (rat_handler.c lines 173-298)

The parsers are modelled on the whole-file byte buffer (the `file_read_into_buffer`
I/O and path joining are outside the embedding).  `float` header fields are
carried as their raw 32-bit patterns: the parser only `memcpy`s them. -/

def RAT3_MAGIC : Nat := 0x33544152

def RATM_MAGIC : Nat := 0x4D544152

/-- Read one byte of the buffer (out-of-bounds reads yield 0; every theorem
about the parsers either stays in bounds or is precisely about the fact that
the source does not bound-check). -/
def readU8 (bytes : List Nat) (off : Nat) : Nat := bytes.getD off 0 % 256

/-- Little-endian `uint32_t` at byte offset `off`. -/
def readU32 (bytes : List Nat) (off : Nat) : Nat :=
  readU8 bytes off + 256 * readU8 bytes (off + 1) + 65536 * readU8 bytes (off + 2) +
    16777216 * readU8 bytes (off + 3)

/-- Little-endian `uint16_t` at byte offset `off`. -/
def readU16 (bytes : List Nat) (off : Nat) : Nat :=
  readU8 bytes off + 256 * readU8 bytes (off + 1)

/-- Group a byte region into little-endian 32-bit words, dropping a partial
tail (`delta_stream_word_count = byte_size / 4`). -/
def wordsOfBytes (bytes : List Nat) : List Nat :=
  (List.range (bytes.length / 4)).map (fun i => readU32 bytes (4 * i))

/-- The two distinguishable parse-failure classes of the source: the
`buffer_size < sizeof(header)` path and the wrong-magic path (lines 180-191 and
255-266 print distinct diagnostics and both return `NULL`). -/
inductive FormatError where
  | Truncated
  | BadMagic
deriving DecidableEq, Repr

/-- The animation record as `load_rat_animation` builds it.  Bounds are raw
bit patterns; `first_frame_quantized` entries are `(x, y, z)` byte triples. -/
structure ParsedRatAnimation where
  num_vertices : Nat
  num_frames : Nat
  min_x_bits : Nat
  min_y_bits : Nat
  min_z_bits : Nat
  max_x_bits : Nat
  max_y_bits : Nat
  max_z_bits : Nat
  is_first_frame_raw : Bool
  mesh_data_filename : List Nat
  first_frame_quantized : List (Nat × Nat × Nat)
  first_frame_raw_bytes : List Nat
  bit_widths_x : List Nat
  bit_widths_y : List Nat
  bit_widths_z : List Nat
  delta_stream : List Nat
  delta_stream_word_count : Nat
deriving DecidableEq, Repr

/-- `load_rat_animation` (lines 173-243).  `sizeof(RatHeader) = 64` with the
packed layout of rat_handler.h.  The filename copy models `strncpy` (stops at
the first NUL within the declared length) and is performed with the declared
length unconditionally, exactly as in the source. -/
def load_rat_animation (bytes : List Nat) : Except FormatError ParsedRatAnimation :=
  if bytes.length < 64 then .error .Truncated
  else if readU32 bytes 0 ≠ RAT3_MAGIC then .error .BadMagic
  else
    let num_vertices := readU32 bytes 4
    let delta_offset := readU32 bytes 16
    let bit_widths_offset := readU32 bytes 20
    let mesh_data_filename_offset := readU32 bytes 24
    let mesh_data_filename_length := readU32 bytes 28
    let is_raw := readU8 bytes 56 ≠ 0
    let raw_first_frame_offset := readU32 bytes 60
    .ok {
      num_vertices := num_vertices
      num_frames := readU32 bytes 8
      min_x_bits := readU32 bytes 32
      min_y_bits := readU32 bytes 36
      min_z_bits := readU32 bytes 40
      max_x_bits := readU32 bytes 44
      max_y_bits := readU32 bytes 48
      max_z_bits := readU32 bytes 52
      is_first_frame_raw := is_raw
      mesh_data_filename :=
        ((bytes.drop mesh_data_filename_offset).take mesh_data_filename_length).takeWhile
          (fun b => b ≠ 0)
      first_frame_quantized :=
        if is_raw then []
        else (List.range num_vertices).map
          (fun i => (readU8 bytes (64 + 3 * i), readU8 bytes (64 + 3 * i + 1),
            readU8 bytes (64 + 3 * i + 2)))
      first_frame_raw_bytes :=
        if is_raw then (bytes.drop raw_first_frame_offset).take (12 * num_vertices) else []
      bit_widths_x := (List.range num_vertices).map (fun i => readU8 bytes (bit_widths_offset + i))
      bit_widths_y :=
        (List.range num_vertices).map (fun i => readU8 bytes (bit_widths_offset + num_vertices + i))
      bit_widths_z :=
        (List.range num_vertices).map
          (fun i => readU8 bytes (bit_widths_offset + 2 * num_vertices + i))
      delta_stream := wordsOfBytes (bytes.drop delta_offset)
      delta_stream_word_count := (bytes.length - delta_offset) / 4
    }

/-- The mesh record as `load_rat_mesh_data` builds it.  UV and color blocks are
raw byte regions (the parser only `memcpy`s them). -/
structure ParsedRatMeshData where
  num_vertices : Nat
  num_indices : Nat
  uvs_bytes : List Nat
  colors_bytes : List Nat
  indices : List Nat
  texture_filename : List Nat
deriving DecidableEq, Repr

/-- `load_rat_mesh_data` (lines 245-298), buffer-parsing portion.
`sizeof(RatMeshHeader) = 48`. -/
def load_rat_mesh_data (bytes : List Nat) : Except FormatError ParsedRatMeshData :=
  if bytes.length < 48 then .error .Truncated
  else if readU32 bytes 0 ≠ RATM_MAGIC then .error .BadMagic
  else
    let num_vertices := readU32 bytes 4
    let num_indices := readU32 bytes 8
    let uv_offset := readU32 bytes 12
    let color_offset := readU32 bytes 16
    let indices_offset := readU32 bytes 20
    let texture_filename_offset := readU32 bytes 24
    let texture_filename_length := readU32 bytes 28
    .ok {
      num_vertices := num_vertices
      num_indices := num_indices
      uvs_bytes := (bytes.drop uv_offset).take (8 * num_vertices)
      colors_bytes := (bytes.drop color_offset).take (16 * num_vertices)
      indices := (List.range num_indices).map (fun i => readU16 bytes (indices_offset + 2 * i))
      texture_filename :=
        ((bytes.drop texture_filename_offset).take texture_filename_length).takeWhile
          (fun b => b ≠ 0)
    }

/-- Whether a parse produced a record. -/
def parseOk {α : Type} : Except FormatError α → Bool
  | .ok _ => true
  | .error _ => false

/-! ## Specification-level definitions

These follow the wording of the specification (spec.md §§4.1 and 4.3), to be
compared with the source-derived definitions above. -/

/-- The packed word stream as one natural number, word 0 least significant
(spec §3: bits are laid out LSB-first within each word). -/
def natOfWords : List Nat → Nat
  | [] => 0
  | w :: ws => w + 2 ^ 32 * natOfWords ws

/-- Spec §4.1: the `width`-bit unsigned field of the stream starting at bit
offset `off`, bit 0 of the field in the least-significant position. -/
def specField (words : List Nat) (off w : Nat) : Nat :=
  (natOfWords words >>> off) % 2 ^ w

/-- Spec §4.1: interpretation of a `w`-bit value as two's complement;
width 0 yields 0. -/
def specSigned (v w : Nat) : Int :=
  if w = 0 then 0
  else if v % 2 ^ w < 2 ^ (w - 1) then ((v % 2 ^ w : Nat) : Int)
  else ((v % 2 ^ w : Nat) : Int) - 2 ^ w

/-- Spec §4.3 step 1: the frame-0 base, as a fresh `num_vertices`-element
buffer (quantized from raw floats, or copied if pre-quantized). -/
def specSeed (anim : RatAnimation) : List VertexU8 :=
  if anim.is_first_frame_raw then
    (List.range anim.num_vertices).map
      (fun i => quantizeVertex anim (anim.first_frame_raw.getD i (0, 0, 0)))
  else
    (List.range anim.num_vertices).map (fun i => anim.first_frame_quantized.getD i ⟨0, 0, 0⟩)

/-- Spec §4.3 step 2, one vertex: read three signed deltas (x then y then z)
as two's-complement bit fields at the shared cursor, using the vertex's fixed
bit widths, and add each to the corresponding component mod 256. -/
def specApplyVertex (anim : RatAnimation) (st : List VertexU8 × Nat) (i : Nat) :
    List VertexU8 × Nat :=
  let wx := anim.bit_widths_x.getD i 0
  let wy := anim.bit_widths_y.getD i 0
  let wz := anim.bit_widths_z.getD i 0
  let dx := specSigned (specField anim.delta_stream st.2 wx) wx
  let dy := specSigned (specField anim.delta_stream (st.2 + wx) wy) wy
  let dz := specSigned (specField anim.delta_stream (st.2 + wx + wy) wz) wz
  let v := st.1.getD i ⟨0, 0, 0⟩
  (st.1.set i ⟨add8 v.x dx, add8 v.y dy, add8 v.z dz⟩, st.2 + wx + wy + wz)

/-- Spec §4.3 step 2, one frame: every vertex in index order. -/
def specApplyFrame (anim : RatAnimation) (st : List VertexU8 × Nat) : List VertexU8 × Nat :=
  (List.range anim.num_vertices).foldl (specApplyVertex anim) st

/-- Spec §4.3: full replay from the frame-0 base through frame `f`, the shared
cursor starting at 0. -/
def specReplay (anim : RatAnimation) (f : Nat) : List VertexU8 :=
  ((specApplyFrame anim)^[f] (specSeed anim, 0)).1

/-- Spec §4.3 step 3: de-quantization of a quantized frame as a fresh
`num_vertices`-element float buffer. -/
def specDequantize (anim : RatAnimation) (q : List VertexU8) : List (ℚ × ℚ × ℚ) :=
  (List.range anim.num_vertices).map (fun i =>
    (anim.min_x + (((q.getD i ⟨0, 0, 0⟩).x : ℚ) / 255) * (anim.max_x - anim.min_x),
     anim.min_y + (((q.getD i ⟨0, 0, 0⟩).y : ℚ) / 255) * (anim.max_y - anim.min_y),
     anim.min_z + (((q.getD i ⟨0, 0, 0⟩).z : ℚ) / 255) * (anim.max_z - anim.min_z)))

/-- Well-formedness of a loaded chunk, as the C types guarantee it: bit widths
are in `0..=32` (spec §3), stream words are `uint32_t` values, and the stream
fits a `uint32_t` byte count. -/
def RatAnimation.WF (anim : RatAnimation) : Prop :=
  (∀ w ∈ anim.bit_widths_x, w ≤ 32) ∧ (∀ w ∈ anim.bit_widths_y, w ≤ 32) ∧
    (∀ w ∈ anim.bit_widths_z, w ≤ 32) ∧ (∀ d ∈ anim.delta_stream, d < 2 ^ 32) ∧
    anim.delta_stream.length ≤ 2 ^ 32

instance (anim : RatAnimation) : Decidable anim.WF := by
  unfold RatAnimation.WF; infer_instance

/-- Total delta bits of vertex `i` (x, y and z widths). -/
def vertexBits (anim : RatAnimation) (i : Nat) : Nat :=
  anim.bit_widths_x.getD i 0 + anim.bit_widths_y.getD i 0 + anim.bit_widths_z.getD i 0

/-- Bits consumed by one frame's worth of deltas. -/
def bitsPerFrame (anim : RatAnimation) : Nat :=
  ((List.range anim.num_vertices).map (vertexBits anim)).sum

/-! ## Concrete instances used by the claim-level theorems below -/

/-- A loaded animation with zero vertices but a nonzero recorded frame count. -/
def c5anim : RatAnimation :=
  { num_vertices := 0, num_frames := 7
    min_x := 0, min_y := 0, min_z := 0, max_x := 1, max_y := 1, max_z := 1
    first_frame_quantized := [], first_frame_raw := [], is_first_frame_raw := false
    bit_widths_x := [], bit_widths_y := [], bit_widths_z := [], delta_stream := [] }

/-- A valid model holding `c5anim`. -/
def c5model : RatModel :=
  { animation := some c5anim, decompressed_vertices_u8 := [], current_frame_vertices := []
    current_frame := 0, is_valid := true }

/-- An animation with a raw base frame and a degenerate bounding box on x
(`max_x = min_x`). -/
def c8anim : RatAnimation :=
  { num_vertices := 1, num_frames := 2
    min_x := 1, min_y := 0, min_z := 0, max_x := 1, max_y := 1, max_z := 1
    first_frame_quantized := [], first_frame_raw := [(1, 0, 0)], is_first_frame_raw := true
    bit_widths_x := [0], bit_widths_y := [0], bit_widths_z := [0], delta_stream := [] }

/-- A one-vertex three-frame chunk with 4-bit deltas on each axis. -/
def c1anim : RatAnimation :=
  { num_vertices := 1, num_frames := 3
    min_x := 0, min_y := 0, min_z := 0, max_x := 255, max_y := 255, max_z := 255
    first_frame_quantized := [⟨5, 6, 7⟩], first_frame_raw := [], is_first_frame_raw := false
    bit_widths_x := [4], bit_widths_y := [4], bit_widths_z := [4]
    delta_stream := [0x00654321] }

/-- A one-vertex two-frame chunk whose deltas are all zero-width. -/
def c4anim : RatAnimation :=
  { num_vertices := 1, num_frames := 2
    min_x := 0, min_y := 0, min_z := 0, max_x := 255, max_y := 255, max_z := 255
    first_frame_quantized := [⟨5, 6, 7⟩], first_frame_raw := [], is_first_frame_raw := false
    bit_widths_x := [0], bit_widths_y := [0], bit_widths_z := [0], delta_stream := [] }

/-- A valid model holding `c4anim`, currently at frame 0. -/
def c4model : RatModel :=
  { animation := some c4anim, decompressed_vertices_u8 := [⟨5, 6, 7⟩]
    current_frame_vertices := [(5, 6, 7)], current_frame := 0, is_valid := true }

/-- A 64-byte animation chunk whose header passes the size and magic checks but
declares a mesh-filename length of 300 at offset 64: the declared region starts
at the end of the buffer and exceeds the 256-byte destination field. -/
def c6buf : List Nat :=
  [0x52, 0x41, 0x54, 0x33,  0, 0, 0, 0,  1, 0, 0, 0,  0, 0, 0, 0,
   64, 0, 0, 0,  64, 0, 0, 0,  64, 0, 0, 0,  44, 1, 0, 0,
   0, 0, 0, 0,  0, 0, 0, 0,  0, 0, 0, 0,  0, 0, 0, 0,  0, 0, 0, 0,  0, 0, 0, 0,
   0, 0, 0, 0,  0, 0, 0, 0]

/-- A 48-byte mesh file whose header passes the size and magic checks but
declares a texture-filename length of 300 at offset 48. -/
def c6meshbuf : List Nat :=
  [0x52, 0x41, 0x54, 0x4D,  0, 0, 0, 0,  0, 0, 0, 0,  48, 0, 0, 0,
   48, 0, 0, 0,  48, 0, 0, 0,  48, 0, 0, 0,  44, 1, 0, 0,
   0, 0, 0, 0,  0, 0, 0, 0,  0, 0, 0, 0,  0, 0, 0, 0]

/-! ## Helper lemmas: buffers -/

theorem foldl_set_range {α : Type} (g : Nat → α) :
    ∀ (n : Nat) (buf : List α), n ≤ buf.length →
      (List.range n).foldl (fun b i => b.set i (g i)) buf =
        (List.range n).map g ++ buf.drop n := by
  intro n
  induction n with
  | zero => intro buf _; simp
  | succ k ih =>
    intro buf h
    have hk : k < buf.length := by omega
    rw [List.range_succ, List.foldl_append, List.map_append, ih buf (by omega)]
    simp only [List.foldl_cons, List.foldl_nil, List.map_cons, List.map_nil]
    rw [List.drop_eq_getElem_cons hk, List.set_append_right _ _ (by simp),
      List.length_map, List.length_range, Nat.sub_self, List.set_cons_zero,
      List.append_assoc, List.singleton_append]

theorem getD_le_of_forall {l : List Nat} {b : Nat} (h : ∀ w ∈ l, w ≤ b) (i : Nat) :
    l.getD i 0 ≤ b := by
  rcases Nat.lt_or_ge i l.length with hi | hi
  · rw [List.getD_eq_getElem?_getD, List.getElem?_eq_getElem hi]
    exact h _ (List.getElem_mem hi)
  · rw [List.getD_eq_getElem?_getD, List.getElem?_eq_none hi]
    exact Nat.zero_le b

/-! ## Helper lemmas: bitstream -/

theorem mask32_eq {w : Nat} (hw : w ≤ 32) : mask32 w = 2 ^ w - 1 := by
  have h1 : 2 ^ w ≤ 2 ^ 32 := Nat.pow_le_pow_right (by norm_num) hw
  have h2 : 1 ≤ 2 ^ w := Nat.one_le_two_pow
  unfold mask32 two32
  rw [Nat.shiftLeft_eq, Nat.one_mul]
  have h32 : (2 : Nat) ^ 32 = 4294967296 := by norm_num
  rw [h32] at h1 ⊢
  omega

theorem natOfWords_append (l₁ l₂ : List Nat) :
    natOfWords (l₁ ++ l₂) = natOfWords l₁ + 2 ^ (32 * l₁.length) * natOfWords l₂ := by
  induction l₁ with
  | nil => simp [natOfWords]
  | cons a t ih =>
    show a + 2 ^ 32 * natOfWords (t ++ l₂) =
      a + 2 ^ 32 * natOfWords t + 2 ^ (32 * (t.length + 1)) * natOfWords l₂
    rw [ih]
    have hpow : 2 ^ (32 * (t.length + 1)) = 2 ^ 32 * 2 ^ (32 * t.length) := by
      have harith : 32 * (t.length + 1) = 32 + 32 * t.length := by ring
      rw [harith, Nat.pow_add]
    rw [hpow]
    ring

theorem natOfWords_lt (l : List Nat) (h : ∀ x ∈ l, x < 2 ^ 32) :
    natOfWords l < 2 ^ (32 * l.length) := by
  induction l with
  | nil => simp [natOfWords]
  | cons a t ih =>
    have ha := h a (by simp)
    have ht := ih (fun x hx => h x (by simp [hx]))
    simp only [natOfWords, List.length_cons]
    have hpow : 2 ^ (32 * (t.length + 1)) = 4294967296 * 2 ^ (32 * t.length) := by
      have harith : 32 * (t.length + 1) = 32 + 32 * t.length := by ring
      rw [harith, Nat.pow_add]
    rw [hpow]
    have h32 : (2 : Nat) ^ 32 = 4294967296 := by norm_num
    rw [h32] at ha
    omega

theorem shiftRight_word_decomp (a M r : Nat) (hr : r ≤ 32) :
    (a + 2 ^ 32 * M) >>> r = a >>> r + 2 ^ (32 - r) * M := by
  rw [Nat.shiftRight_eq_div_pow, Nat.shiftRight_eq_div_pow]
  have hsplit : (2 : Nat) ^ 32 = 2 ^ r * 2 ^ (32 - r) := by
    rw [← Nat.pow_add]; congr 1; omega
  rw [hsplit, Nat.mul_assoc, Nat.add_mul_div_left _ _ (Nat.two_pow_pos r)]

theorem natOfWords_shiftRight (l : List Nat) (h : ∀ x ∈ l, x < 2 ^ 32) (q r : Nat)
    (hq : q ≤ l.length) :
    natOfWords l >>> (32 * q + r) = natOfWords (l.drop q) >>> r := by
  conv_lhs => rw [← List.take_append_drop q l]
  rw [natOfWords_append]
  have hlen : (l.take q).length = q := by rw [List.length_take]; omega
  have htl : natOfWords (l.take q) < 2 ^ (32 * q) := by
    have h1 := natOfWords_lt (l.take q) (fun x hx => h x (List.mem_of_mem_take hx))
    rwa [hlen] at h1
  rw [hlen]
  rw [Nat.shiftRight_eq_div_pow, Nat.shiftRight_eq_div_pow, Nat.pow_add,
    ← Nat.div_div_eq_div_mul]
  congr 1
  rw [Nat.add_mul_div_left _ _ (Nat.two_pow_pos (32 * q)), Nat.div_eq_of_lt htl,
    Nat.zero_add]

theorem specField_lt (words : List Nat) (off w : Nat) : specField words off w < 2 ^ w :=
  Nat.mod_lt _ (Nat.two_pow_pos w)

theorem get_bits_correct (words : List Nat) (off w : Nat) (hw : w ≤ 32)
    (hwords : ∀ x ∈ words, x < 2 ^ 32) (hsz : words.length ≤ 2 ^ 32)
    (hlen : off + w ≤ 32 * words.length) :
    get_bits words off w = (specField words off w, off + w) := by
  rcases Nat.eq_zero_or_pos w with rfl | hw0
  · simp [get_bits, specField, Nat.mod_one]
  · have hq : off / 32 < words.length :=
      (Nat.div_lt_iff_lt_mul (by norm_num)).2 (by omega)
    have hqmod : (off / 32) % two32 = off / 32 := by
      unfold two32
      exact Nat.mod_eq_of_lt (lt_of_lt_of_le hq hsz)
    have hr : off % 32 < 32 := Nat.mod_lt _ (by norm_num)
    have hoff : 32 * (off / 32) + off % 32 = off := by omega
    have hgetD : words.getD (off / 32) 0 = words[off / 32] := by
      rw [List.getD_eq_getElem?_getD, List.getElem?_eq_getElem hq]
      rfl
    have hdrop : words.drop (off / 32) = words[off / 32] :: words.drop (off / 32 + 1) :=
      List.drop_eq_getElem_cons hq
    have hshift : natOfWords words >>> off
        = natOfWords (words.drop (off / 32)) >>> (off % 32) := by
      conv_lhs => rw [← hoff]
      exact natOfWords_shiftRight words hwords (off / 32) (off % 32) (le_of_lt hq)
    have hfield : specField words off w =
        (words[off / 32] >>> (off % 32) +
          2 ^ (32 - off % 32) * natOfWords (words.drop (off / 32 + 1))) % 2 ^ w := by
      unfold specField
      rw [hshift, hdrop]
      show (words[off / 32] + 2 ^ 32 * natOfWords (words.drop (off / 32 + 1))) >>> (off % 32)
          % 2 ^ w = _
      rw [shiftRight_word_decomp _ _ _ (le_of_lt hr)]
    unfold get_bits
    rw [if_neg (by omega)]
    simp only [hqmod, hgetD]
    by_cases hcase : off % 32 + w ≤ 32
    · rw [if_pos hcase]
      refine Prod.ext ?_ rfl
      show words[off / 32] >>> (off % 32) &&& mask32 w = specField words off w
      rw [mask32_eq hw, Nat.and_pow_two_sub_one_eq_mod, hfield]
      have hsplit : (2 : Nat) ^ (32 - off % 32) = 2 ^ w * 2 ^ (32 - off % 32 - w) := by
        rw [← Nat.pow_add]; congr 1; omega
      rw [hsplit, Nat.mul_assoc, Nat.add_mul_mod_self_left]
    · rw [if_neg hcase]
      have hq1 : off / 32 + 1 < words.length := by omega
      have hgetD1 : words.getD (off / 32 + 1) 0 = words[off / 32 + 1] := by
        rw [List.getD_eq_getElem?_getD, List.getElem?_eq_getElem hq1]
        rfl
      have hdrop1 : words.drop (off / 32 + 1) = words[off / 32 + 1] :: words.drop (off / 32 + 2) :=
        List.drop_eq_getElem_cons hq1
      refine Prod.ext ?_ rfl
      -- abbreviations for the two word halves
      have hk1 : 1 ≤ 32 - off % 32 := by omega
      have hm1 : 1 ≤ w - (32 - off % 32) := by omega
      have hm31 : w - (32 - off % 32) ≤ 31 := by omega
      have hkm : (32 - off % 32) + (w - (32 - off % 32)) = w := by omega
      have h2 : (2 : Nat) ^ (32 - off % 32) * 2 ^ (w - (32 - off % 32)) = 2 ^ w := by
        rw [← Nat.pow_add, hkm]
      have hpart1lt : words[off / 32] >>> (off % 32) < 2 ^ (32 - off % 32) := by
        rw [Nat.shiftRight_eq_div_pow]
        refine (Nat.div_lt_iff_lt_mul (Nat.two_pow_pos _)).2 ?_
        have hw32 : (2 : Nat) ^ (32 - off % 32) * 2 ^ (off % 32) = 2 ^ 32 := by
          rw [← Nat.pow_add]; congr 1; omega
        rw [hw32]
        exact hwords _ (List.getElem_mem hq)
      have hu : words[off / 32 + 1] % 2 ^ (w - (32 - off % 32)) < 2 ^ (w - (32 - off % 32)) :=
        Nat.mod_lt _ (Nat.two_pow_pos _)
      have hfieldB : specField words off w =
          words[off / 32] >>> (off % 32) +
            2 ^ (32 - off % 32) * (words[off / 32 + 1] % 2 ^ (w - (32 - off % 32))) := by
        rw [hfield, hdrop1]
        show (words[off / 32] >>> (off % 32) +
          2 ^ (32 - off % 32) *
            (words[off / 32 + 1] + 2 ^ 32 * natOfWords (words.drop (off / 32 + 2)))) % 2 ^ w = _
        have h1 : (2 : Nat) ^ (32 - off % 32) * 2 ^ 32
            = 2 ^ w * 2 ^ ((32 - off % 32) + 32 - w) := by
          rw [← Nat.pow_add, ← Nat.pow_add]; congr 1; omega
        have hbig : words[off / 32] >>> (off % 32) +
            2 ^ (32 - off % 32) *
              (words[off / 32 + 1] + 2 ^ 32 * natOfWords (words.drop (off / 32 + 2)))
            = (words[off / 32] >>> (off % 32) +
                2 ^ (32 - off % 32) * (words[off / 32 + 1] % 2 ^ (w - (32 - off % 32))))
              + 2 ^ w * (2 ^ ((32 - off % 32) + 32 - w) * natOfWords (words.drop (off / 32 + 2))
                + words[off / 32 + 1] / 2 ^ (w - (32 - off % 32))) := by
          calc words[off / 32] >>> (off % 32) +
              2 ^ (32 - off % 32) *
                (words[off / 32 + 1] + 2 ^ 32 * natOfWords (words.drop (off / 32 + 2)))
              = words[off / 32] >>> (off % 32) +
                2 ^ (32 - off % 32) * (words[off / 32 + 1] % 2 ^ (w - (32 - off % 32)))
                + (2 ^ (32 - off % 32) * 2 ^ (w - (32 - off % 32))) *
                  (words[off / 32 + 1] / 2 ^ (w - (32 - off % 32)))
                + (2 ^ (32 - off % 32) * 2 ^ 32) * natOfWords (words.drop (off / 32 + 2)) := by
                conv_lhs =>
                  rw [← Nat.mod_add_div (words[off / 32 + 1]) (2 ^ (w - (32 - off % 32)))]
                ring
            _ = _ := by rw [h2, h1]; ring
        rw [hbig, Nat.add_mul_mod_self_left]
        refine Nat.mod_eq_of_lt ?_
        have h3 : 2 ^ (32 - off % 32) * (words[off / 32 + 1] % 2 ^ (w - (32 - off % 32)) + 1)
            ≤ 2 ^ (32 - off % 32) * 2 ^ (w - (32 - off % 32)) :=
          Nat.mul_le_mul_left _ (by omega)
        have h4 : 2 ^ (32 - off % 32) * (words[off / 32 + 1] % 2 ^ (w - (32 - off % 32)) + 1)
            = 2 ^ (32 - off % 32) * (words[off / 32 + 1] % 2 ^ (w - (32 - off % 32)))
              + 2 ^ (32 - off % 32) := by ring
        omega
      show words[off / 32] >>> (off % 32) |||
          (words.getD (off / 32 + 1) 0 &&& mask32 (w - (32 - off % 32)))
            <<< (32 - off % 32) % two32 = specField words off w
      rw [hgetD1, mask32_eq (by omega), Nat.and_pow_two_sub_one_eq_mod]
      have hshl : ((words[off / 32 + 1] % 2 ^ (w - (32 - off % 32))) <<< (32 - off % 32)) % two32
          = 2 ^ (32 - off % 32) * (words[off / 32 + 1] % 2 ^ (w - (32 - off % 32))) := by
        rw [Nat.shiftLeft_eq]
        unfold two32
        have hlt : words[off / 32 + 1] % 2 ^ (w - (32 - off % 32)) * 2 ^ (32 - off % 32)
            < 2 ^ 32 := by
          calc words[off / 32 + 1] % 2 ^ (w - (32 - off % 32)) * 2 ^ (32 - off % 32)
              < 2 ^ (w - (32 - off % 32)) * 2 ^ (32 - off % 32) :=
                (Nat.mul_lt_mul_right (Nat.two_pow_pos _)).2 hu
            _ = 2 ^ w := by rw [Nat.mul_comm]; exact h2
            _ ≤ 2 ^ 32 := Nat.pow_le_pow_right (by norm_num) hw
        rw [Nat.mod_eq_of_lt hlt, Nat.mul_comm]
      rw [hshl]
      rw [Nat.lor_comm, ← Nat.mul_add_lt_is_or hpart1lt, hfieldB]
      ring

theorem sign_extend_correct (v w : Nat) (hw : w ≤ 32) (hv : v < 2 ^ w) :
    sign_extend v w = specSigned v w := by
  rcases Nat.eq_zero_or_pos w with rfl | hw0
  · simp [sign_extend, specSigned]
  · have hvmod : v % 2 ^ w = v := Nat.mod_eq_of_lt hv
    have hw32 : (2 : Nat) ^ w ≤ 2 ^ 32 := Nat.pow_le_pow_right (by norm_num) hw
    have hw31 : (2 : Nat) ^ (w - 1) ≤ 2 ^ 31 := Nat.pow_le_pow_right (by norm_num) (by omega)
    have h31c : (2 : Nat) ^ 31 = 2147483648 := by norm_num
    have h32c : (2 : Nat) ^ 32 = 4294967296 := by norm_num
    have hwsucc : (2 : Nat) ^ w = 2 ^ (w - 1) * 2 := by
      rw [← Nat.pow_succ]; congr 1; omega
    have hsb : (1 <<< (w - 1)) % two32 = 2 ^ (w - 1) := by
      rw [Nat.shiftLeft_eq, Nat.one_mul]
      unfold two32
      exact Nat.mod_eq_of_lt (by omega)
    have hand : v &&& 2 ^ (w - 1) = (v.testBit (w - 1)).toNat * 2 ^ (w - 1) :=
      Nat.and_two_pow v (w - 1)
    unfold sign_extend specSigned
    rw [if_neg (show ¬ w = 0 from by omega)]
    rw [if_neg (show ¬ w = 0 from by omega)]
    rw [hsb, hvmod]
    show (if v &&& 2 ^ (w - 1) ≠ 0 then toInt32 (v ||| (two32 - 1) <<< w % two32)
        else toInt32 v) = if v < 2 ^ (w - 1) then (v : ℤ) else (v : ℤ) - 2 ^ w
    rw [hand]
    rcases Nat.lt_or_ge v (2 ^ (w - 1)) with hlt | hge
    · have htb : v.testBit (w - 1) = false := by
        rw [Nat.testBit_to_div_mod, Nat.div_eq_of_lt hlt]
        simp
      rw [htb]
      simp only [Bool.toNat_false, Nat.zero_mul]
      rw [if_neg (show ¬ (0 : Nat) ≠ 0 from by simp)]
      rw [if_pos hlt]
      unfold toInt32 two32
      rw [Nat.mod_eq_of_lt (by omega), if_pos (by omega)]
    · have hd1 : 1 ≤ v / 2 ^ (w - 1) := (Nat.le_div_iff_mul_le (Nat.two_pow_pos _)).2 (by omega)
      have hd2 : v / 2 ^ (w - 1) < 2 :=
        (Nat.div_lt_iff_lt_mul (Nat.two_pow_pos _)).2 (by omega)
      have htb : v.testBit (w - 1) = true := by
        rw [Nat.testBit_to_div_mod]
        have hdd : v / 2 ^ (w - 1) = 1 := by omega
        simp [hdd]
      rw [htb]
      simp only [Bool.toNat_true, Nat.one_mul]
      rw [if_pos (show (2 : Nat) ^ (w - 1) ≠ 0 from by positivity)]
      rw [if_neg (show ¬ v < 2 ^ (w - 1) from by omega)]
      have hmask : ((two32 - 1) <<< w) % two32 = 2 ^ 32 - 2 ^ w := by
        unfold two32
        rw [Nat.shiftLeft_eq]
        have e1 : (1 : Nat) ≤ 2 ^ w := Nat.one_le_two_pow
        have h1 : ((2 : Nat) ^ 32 - 1) * 2 ^ w = (2 ^ 32 - 2 ^ w) + 2 ^ 32 * (2 ^ w - 1) := by
          zify [hw32, e1, show (1:Nat) ≤ 2 ^ 32 by norm_num]
          ring
        rw [h1, Nat.add_mul_mod_self_left, Nat.mod_eq_of_lt (by omega)]
      have hsplit2 : (2 : Nat) ^ 32 - 2 ^ w = 2 ^ w * (2 ^ (32 - w) - 1) := by
        have e3 : (2 : Nat) ^ w * 2 ^ (32 - w) = 2 ^ 32 := by
          rw [← Nat.pow_add]; congr 1; omega
        have e3i : ((2 : ℤ) ^ w * 2 ^ (32 - w)) = 2 ^ 32 := by exact_mod_cast e3
        have e4 : (1 : Nat) ≤ 2 ^ (32 - w) := Nat.one_le_two_pow
        zify [e4, hw32]
        rw [mul_sub, mul_one, e3i]
      rw [hmask, hsplit2, Nat.lor_comm, ← Nat.mul_add_lt_is_or hv, ← hsplit2]
      unfold toInt32 two32
      rw [Nat.mod_eq_of_lt (by omega), if_neg (by omega)]
      have hcast : (((2 : Nat) ^ 32 - 2 ^ w + v : Nat) : ℤ)
          = (2 : ℤ) ^ 32 - 2 ^ w + (v : ℤ) := by
        zify [hw32]
      rw [hcast]
      push_cast
      ring

/-! ## Helper lemmas: delta replay -/

theorem get_bits_offset (data : List Nat) (off w : Nat) : (get_bits data off w).2 = off + w := by
  unfold get_bits
  by_cases h : w = 0
  · subst h; simp
  · rw [if_neg h]

theorem applyVertexDeltas_snd (anim : RatAnimation) (st : List VertexU8 × Nat) (i : Nat) :
    (applyVertexDeltas anim st i).2 = st.2 + anim.bit_widths_x.getD i 0 +
      anim.bit_widths_y.getD i 0 + anim.bit_widths_z.getD i 0 := by
  show (get_bits anim.delta_stream
    (get_bits anim.delta_stream
      (get_bits anim.delta_stream st.2 (anim.bit_widths_x.getD i 0)).2
      (anim.bit_widths_y.getD i 0)).2 (anim.bit_widths_z.getD i 0)).2 = _
  rw [get_bits_offset, get_bits_offset, get_bits_offset]

theorem foldl_deltas_offset (anim : RatAnimation) :
    ∀ (L : List Nat) (st : List VertexU8 × Nat),
      (L.foldl (applyVertexDeltas anim) st).2 = st.2 + (L.map (vertexBits anim)).sum := by
  intro L
  induction L with
  | nil => intro st; simp
  | cons i L ih =>
    intro st
    simp only [List.foldl_cons, List.map_cons, List.sum_cons]
    rw [ih, applyVertexDeltas_snd]
    have hvb : vertexBits anim i = anim.bit_widths_x.getD i 0 + anim.bit_widths_y.getD i 0 +
      anim.bit_widths_z.getD i 0 := rfl
    omega

theorem spec_foldl_offset (anim : RatAnimation) :
    ∀ (L : List Nat) (st : List VertexU8 × Nat),
      (L.foldl (specApplyVertex anim) st).2 = st.2 + (L.map (vertexBits anim)).sum := by
  intro L
  induction L with
  | nil => intro st; simp
  | cons i L ih =>
    intro st
    simp only [List.foldl_cons, List.map_cons, List.sum_cons]
    rw [ih]
    have hsnd : (specApplyVertex anim st i).2 = st.2 + anim.bit_widths_x.getD i 0 +
        anim.bit_widths_y.getD i 0 + anim.bit_widths_z.getD i 0 := rfl
    rw [hsnd]
    have hvb : vertexBits anim i = anim.bit_widths_x.getD i 0 + anim.bit_widths_y.getD i 0 +
      anim.bit_widths_z.getD i 0 := rfl
    omega

theorem applyFrameDeltas_snd (anim : RatAnimation) (st : List VertexU8 × Nat) :
    (applyFrameDeltas anim st).2 = st.2 + bitsPerFrame anim :=
  foldl_deltas_offset anim (List.range anim.num_vertices) st

theorem specApplyFrame_snd (anim : RatAnimation) (st : List VertexU8 × Nat) :
    (specApplyFrame anim st).2 = st.2 + bitsPerFrame anim :=
  spec_foldl_offset anim (List.range anim.num_vertices) st

theorem iterate_applyFrame_snd (anim : RatAnimation) (k : Nat) (st : List VertexU8 × Nat) :
    ((applyFrameDeltas anim)^[k] st).2 = st.2 + k * bitsPerFrame anim := by
  induction k with
  | zero => simp
  | succ n ih =>
    rw [Function.iterate_succ_apply', applyFrameDeltas_snd, ih, Nat.succ_mul]
    omega

theorem foldl_deltas_eq_spec (anim : RatAnimation) (hwf : anim.WF) :
    ∀ (L : List Nat) (buf : List VertexU8) (off : Nat),
      off + (L.map (vertexBits anim)).sum ≤ 32 * anim.delta_stream.length →
      L.foldl (applyVertexDeltas anim) (buf, off) = L.foldl (specApplyVertex anim) (buf, off) := by
  obtain ⟨hwx, hwy, hwz, hws, hsl⟩ := hwf
  intro L
  induction L with
  | nil => intro buf off _; rfl
  | cons i L ih =>
    intro buf off h
    simp only [List.map_cons, List.sum_cons] at h
    simp only [List.foldl_cons]
    have hvb : vertexBits anim i = anim.bit_widths_x.getD i 0 + anim.bit_widths_y.getD i 0 +
      anim.bit_widths_z.getD i 0 := rfl
    have hbx : anim.bit_widths_x.getD i 0 ≤ 32 := getD_le_of_forall hwx i
    have hby : anim.bit_widths_y.getD i 0 ≤ 32 := getD_le_of_forall hwy i
    have hbz : anim.bit_widths_z.getD i 0 ≤ 32 := getD_le_of_forall hwz i
    have hx := get_bits_correct anim.delta_stream off (anim.bit_widths_x.getD i 0)
      hbx hws hsl (by omega)
    have hy := get_bits_correct anim.delta_stream (off + anim.bit_widths_x.getD i 0)
      (anim.bit_widths_y.getD i 0) hby hws hsl (by omega)
    have hz := get_bits_correct anim.delta_stream
      (off + anim.bit_widths_x.getD i 0 + anim.bit_widths_y.getD i 0)
      (anim.bit_widths_z.getD i 0) hbz hws hsl (by omega)
    have hstep : applyVertexDeltas anim (buf, off) i = specApplyVertex anim (buf, off) i := by
      show (buf.set i
          ⟨add8 (buf.getD i ⟨0, 0, 0⟩).x
              (sign_extend (get_bits anim.delta_stream off (anim.bit_widths_x.getD i 0)).1
                (anim.bit_widths_x.getD i 0)),
            add8 (buf.getD i ⟨0, 0, 0⟩).y
              (sign_extend (get_bits anim.delta_stream
                  (get_bits anim.delta_stream off (anim.bit_widths_x.getD i 0)).2
                  (anim.bit_widths_y.getD i 0)).1 (anim.bit_widths_y.getD i 0)),
            add8 (buf.getD i ⟨0, 0, 0⟩).z
              (sign_extend (get_bits anim.delta_stream
                  (get_bits anim.delta_stream
                    (get_bits anim.delta_stream off (anim.bit_widths_x.getD i 0)).2
                    (anim.bit_widths_y.getD i 0)).2 (anim.bit_widths_z.getD i 0)).1
                (anim.bit_widths_z.getD i 0))⟩,
          (get_bits anim.delta_stream
            (get_bits anim.delta_stream
              (get_bits anim.delta_stream off (anim.bit_widths_x.getD i 0)).2
              (anim.bit_widths_y.getD i 0)).2 (anim.bit_widths_z.getD i 0)).2) =
        specApplyVertex anim (buf, off) i
      rw [hx]
      dsimp only
      rw [hy]
      dsimp only
      rw [hz]
      dsimp only
      rw [sign_extend_correct _ _ hbx (specField_lt _ _ _),
        sign_extend_correct _ _ hby (specField_lt _ _ _),
        sign_extend_correct _ _ hbz (specField_lt _ _ _)]
      rfl
    rw [hstep]
    rcases hsv : specApplyVertex anim (buf, off) i with ⟨buf2, off2⟩
    have hoff2 : off2 = off + anim.bit_widths_x.getD i 0 + anim.bit_widths_y.getD i 0 +
        anim.bit_widths_z.getD i 0 := by
      have h5 := congrArg Prod.snd hsv
      exact h5.symm
    rw [hoff2]
    exact ih buf2 _ (by omega)

theorem applyFrame_eq_spec (anim : RatAnimation) (hwf : anim.WF) (buf : List VertexU8)
    (off : Nat) (h : off + bitsPerFrame anim ≤ 32 * anim.delta_stream.length) :
    applyFrameDeltas anim (buf, off) = specApplyFrame anim (buf, off) :=
  foldl_deltas_eq_spec anim hwf (List.range anim.num_vertices) buf off h

theorem iterate_frames_eq_spec (anim : RatAnimation) (hwf : anim.WF) :
    ∀ (k : Nat) (buf : List VertexU8) (off : Nat),
      off + k * bitsPerFrame anim ≤ 32 * anim.delta_stream.length →
      (applyFrameDeltas anim)^[k] (buf, off) = (specApplyFrame anim)^[k] (buf, off) := by
  intro k
  induction k with
  | zero => intro buf off _; rfl
  | succ n ih =>
    intro buf off h
    have hsm : (n + 1) * bitsPerFrame anim = n * bitsPerFrame anim + bitsPerFrame anim :=
      Nat.succ_mul n (bitsPerFrame anim)
    rw [Function.iterate_succ_apply, Function.iterate_succ_apply]
    rw [applyFrame_eq_spec anim hwf buf off (by omega)]
    rcases hsf : specApplyFrame anim (buf, off) with ⟨buf2, off2⟩
    have hoff2 : off2 = off + bitsPerFrame anim := by
      have h5 := congrArg Prod.snd hsf
      rw [specApplyFrame_snd] at h5
      exact h5.symm
    rw [hoff2]
    exact ih buf2 _ (by omega)

theorem decompressQuantized_eq_iterate (anim : RatAnimation) (scratch : List VertexU8)
    (fi : Nat) :
    decompressQuantized anim scratch fi =
      ((applyFrameDeltas anim)^[fi] (seedFirstFrame anim scratch, 0)).1 := by
  unfold decompressQuantized
  by_cases h : fi = 0
  · subst h; simp
  · rw [if_neg h]

theorem seed_eq_specSeed (anim : RatAnimation) (scratch : List VertexU8)
    (hs : anim.num_vertices ≤ scratch.length) :
    seedFirstFrame anim scratch =
      specSeed anim ++ scratch.drop anim.num_vertices := by
  unfold seedFirstFrame specSeed
  by_cases h : anim.is_first_frame_raw
  · rw [if_pos h, if_pos h, foldl_set_range _ _ _ hs]
  · rw [if_neg h, if_neg h, foldl_set_range _ _ _ hs]

theorem seed_eq_specSeed_of_length (anim : RatAnimation) (scratch : List VertexU8)
    (hs : scratch.length = anim.num_vertices) :
    seedFirstFrame anim scratch = specSeed anim := by
  rw [seed_eq_specSeed anim scratch (by omega), List.drop_eq_nil_of_le (by omega),
    List.append_nil]

theorem dequantizeInto_eq_spec (anim : RatAnimation) (old : List (ℚ × ℚ × ℚ))
    (q : List VertexU8) (h : old.length = anim.num_vertices) :
    dequantizeInto anim old q = specDequantize anim q := by
  unfold dequantizeInto specDequantize
  rw [foldl_set_range _ _ _ (by omega), List.drop_eq_nil_of_le (by omega), List.append_nil]

/-! ## Claim-level theorems -/

/-- C2: for every word array, bit offset and width in `0..=32` (with enough
words for the read, `uint32_t`-typed data), `get_bits` returns the width-bit
unsigned field starting at the given offset (bit 0 = LSB of word 0) with the
field's bit 0 least significant, and advances the offset by exactly the width;
when the field straddles two words the low part comes from the current word's
high bits and the high part from the next word's low bits; width 0 returns 0
without advancing. -/
theorem get_bits_reads_bitstream_field (words : List Nat) (off w : Nat) (hw : w ≤ 32)
    (hwords : ∀ x ∈ words, x < 2 ^ 32) (hsz : words.length ≤ 2 ^ 32)
    (hlen : off + w ≤ 32 * words.length) :
    get_bits words off w = (specField words off w, off + w) :=
  get_bits_correct words off w hw hwords hsz hlen

/-- Witness for C2: a 20-bit field starting at bit 24 of word 0 (straddling two
words), on the concrete stream `[0x89ABCDEF, 0x00012345]`. -/
theorem get_bits_reads_bitstream_field_witness :
    get_bits [0x89ABCDEF, 0x00012345] 24 20 = (specField [0x89ABCDEF, 0x00012345] 24 20, 44) :=
  get_bits_reads_bitstream_field [0x89ABCDEF, 0x00012345] 24 20 (by norm_num)
    (by decide) (by norm_num) (by norm_num)

/-- C3: for every value below `2 ^ width` and width in `1..=32`, `sign_extend`
returns the width-bit two's-complement interpretation (all higher bits set
when the sign bit is set, the value unchanged otherwise); moreover
`sign_extend 0b111 3 = -1`, `sign_extend 0b011 3 = 3`, and width 0 yields 0 for
every input. -/
theorem sign_extend_is_twos_complement :
    (∀ v w : Nat, 1 ≤ w → w ≤ 32 → v < 2 ^ w → sign_extend v w = specSigned v w) ∧
      sign_extend 7 3 = -1 ∧ sign_extend 3 3 = 3 ∧ (∀ x : Nat, sign_extend x 0 = 0) :=
  ⟨fun v w _ hw hv => sign_extend_correct v w hw hv, by decide, by decide, fun _ => rfl⟩

/-- Witness for C3: `sign_extend 5 3` agrees with the two's-complement
interpretation of `0b101` at width 3. -/
theorem sign_extend_is_twos_complement_witness : sign_extend 5 3 = specSigned 5 3 :=
  sign_extend_is_twos_complement.1 5 3 (by norm_num) (by norm_num) (by norm_num)

/-- C1: for every well-formed chunk and target frame `f` with
`1 ≤ f < num_frames` (with the delta stream long enough for the replay, per
the format invariant), `decompress_frame` produces quantized vertices equal to
the spec-side replay: the frame-0 base (copied if pre-quantized, else
quantized from the raw floats), then for each frame `1..f` and each vertex in
index order three signed two's-complement deltas (x then y then z) of that
vertex's fixed bit widths read from one shared bit cursor starting at 0, each
added to the corresponding `u8` component mod 256 — wrapping, never clamped
(`add8 255 1 = 0` and `add8 0 (-1) = 255`). -/
theorem decompress_frame_matches_spec_replay (anim : RatAnimation) (f : Nat)
    (scratchU8 : List VertexU8) (scratchV : List (ℚ × ℚ × ℚ))
    (hwf : anim.WF) (hf1 : 1 ≤ f) (hf2 : f < anim.num_frames)
    (hs : scratchU8.length = anim.num_vertices)
    (hstream : f * bitsPerFrame anim ≤ 32 * anim.delta_stream.length) :
    (decompress_frame anim scratchU8 scratchV f).1 = specReplay anim f ∧
      add8 255 1 = 0 ∧ add8 0 (-1) = 255 := by
  refine ⟨?_, by decide, by decide⟩
  show decompressQuantized anim scratchU8 f = specReplay anim f
  rw [decompressQuantized_eq_iterate, seed_eq_specSeed_of_length anim scratchU8 hs]
  unfold specReplay
  rw [iterate_frames_eq_spec anim hwf f (specSeed anim) 0 (by omega)]

/-- Witness for C1: the one-vertex chunk `c1anim` decompressed to frame 2. -/
theorem decompress_frame_matches_spec_replay_witness :
    (decompress_frame c1anim [⟨0, 0, 0⟩] [(0, 0, 0)] 2).1 = specReplay c1anim 2 ∧
      add8 255 1 = 0 ∧ add8 0 (-1) = 255 :=
  decompress_frame_matches_spec_replay c1anim 2 [⟨0, 0, 0⟩] [(0, 0, 0)]
    (by decide) (by norm_num) (by decide) (by decide) (by decide)

/-- C9: for every chunk and frame `N` with `1 ≤ N < num_frames`, full replay to
frame `N` equals full replay to frame `N - 1` followed by one more frame's
worth of deltas, read with the shared cursor positioned after the first
`N - 1` frames' fields. -/
theorem replay_frame_incremental_equivalence (anim : RatAnimation) (scratch : List VertexU8)
    (N : Nat) (h1 : 1 ≤ N) (h2 : N < anim.num_frames) :
    decompressQuantized anim scratch N =
      (applyFrameDeltas anim
        (decompressQuantized anim scratch (N - 1), (N - 1) * bitsPerFrame anim)).1 := by
  rw [decompressQuantized_eq_iterate, decompressQuantized_eq_iterate]
  conv_lhs => rw [show N = (N - 1) + 1 from by omega]
  rw [Function.iterate_succ_apply']
  have hX : (applyFrameDeltas anim)^[N - 1] (seedFirstFrame anim scratch, 0)
      = (((applyFrameDeltas anim)^[N - 1] (seedFirstFrame anim scratch, 0)).1,
        (N - 1) * bitsPerFrame anim) := by
    refine Prod.ext rfl ?_
    rw [iterate_applyFrame_snd]
    simp
  rw [← hX]

/-- Witness for C9: incremental reconstruction of frame 2 of `c1anim`. -/
theorem replay_frame_incremental_equivalence_witness :
    decompressQuantized c1anim [⟨0, 0, 0⟩] 2 =
      (applyFrameDeltas c1anim
        (decompressQuantized c1anim [⟨0, 0, 0⟩] 1, 1 * bitsPerFrame c1anim)).1 :=
  replay_frame_incremental_equivalence c1anim [⟨0, 0, 0⟩] 2 (by norm_num) (by decide)

/-- C10: decompression is deterministic and independent of the prior contents
of the two scratch buffers: for any two buffer states of the allocated size
(`num_vertices`), decompressing the same frame index yields identical quantized
and float outputs, since every call fully overwrites both buffers. -/
theorem decompress_deterministic_scratch_independent (anim : RatAnimation) (fi : Nat)
    (s1 s2 : List VertexU8) (v1 v2 : List (ℚ × ℚ × ℚ))
    (hs1 : s1.length = anim.num_vertices) (hs2 : s2.length = anim.num_vertices)
    (hv1 : v1.length = anim.num_vertices) (hv2 : v2.length = anim.num_vertices) :
    decompress_frame anim s1 v1 fi = decompress_frame anim s2 v2 fi := by
  have hq : decompressQuantized anim s1 fi = decompressQuantized anim s2 fi := by
    rw [decompressQuantized_eq_iterate, decompressQuantized_eq_iterate,
      seed_eq_specSeed_of_length anim s1 hs1, seed_eq_specSeed_of_length anim s2 hs2]
  show (decompressQuantized anim s1 fi,
      dequantizeInto anim v1 (decompressQuantized anim s1 fi))
    = (decompressQuantized anim s2 fi,
      dequantizeInto anim v2 (decompressQuantized anim s2 fi))
  rw [hq, dequantizeInto_eq_spec _ _ _ hv1, dequantizeInto_eq_spec _ _ _ hv2]

/-- Witness for C10: two different scratch states of `c1anim` yield identical
frame-1 output. -/
theorem decompress_deterministic_scratch_independent_witness :
    decompress_frame c1anim [⟨1, 2, 3⟩] [(0, 0, 0)] 1 =
      decompress_frame c1anim [⟨9, 9, 9⟩] [(1, 1, 1)] 1 :=
  decompress_deterministic_scratch_independent c1anim 1 [⟨1, 2, 3⟩] [⟨9, 9, 9⟩]
    [(0, 0, 0)] [(1, 1, 1)] (by decide) (by decide) (by decide) (by decide)

theorem rat_model_update_some (m : RatModel) (anim : RatAnimation) (lf0 : Nat)
    (hv : m.is_valid = true) (ha : m.animation = some anim) (hne : lf0 ≠ m.current_frame) :
    rat_model_update (some m) lf0 =
      some { m with
        decompressed_vertices_u8 := (decompress_frame anim m.decompressed_vertices_u8
          m.current_frame_vertices
          (clampFrame (rat_model_get_chunk_frame_count (some m)) lf0)).1
        current_frame_vertices := (decompress_frame anim m.decompressed_vertices_u8
          m.current_frame_vertices
          (clampFrame (rat_model_get_chunk_frame_count (some m)) lf0)).2
        current_frame := clampFrame (rat_model_get_chunk_frame_count (some m)) lf0 } := by
  simp only [rat_model_update]
  rw [if_neg (by simp [hv, hne]), ha]

/-- C4: for every valid model (holding an animation, with the requested and
clamped indices not short-circuited by the current-frame check), seeking to any
frame index at or past the frame count is not an error and materializes exactly
the same state — vertex buffers and stored frame index — as seeking to
`frame_count - 1` (frame 0 when `frame_count = 0`); in particular
`seek(model, frame_count + 5)` yields the same vertices as
`seek(model, frame_count - 1)`. -/
theorem seek_clamps_out_of_range_frames (m : RatModel) (anim : RatAnimation) (k : Nat)
    (hv : m.is_valid = true) (ha : m.animation = some anim)
    (hk : rat_model_get_chunk_frame_count (some m) ≤ k)
    (hne1 : k ≠ m.current_frame) (hne2 : lastFrameTarget m ≠ m.current_frame) :
    rat_model_update (some m) k = rat_model_update (some m) (lastFrameTarget m) := by
  rw [rat_model_update_some m anim k hv ha hne1,
    rat_model_update_some m anim (lastFrameTarget m) hv ha hne2]
  have hclamp : clampFrame (rat_model_get_chunk_frame_count (some m)) k
      = clampFrame (rat_model_get_chunk_frame_count (some m)) (lastFrameTarget m) := by
    unfold clampFrame lastFrameTarget
    by_cases h0 : rat_model_get_chunk_frame_count (some m) = 0
    · simp [h0]
    · rw [if_pos hk, if_pos (by omega), if_neg h0, if_neg (by omega)]
  rw [hclamp]

/-- Witness for C4: seeking `c4model` (frame count 2, currently at frame 0) to
frame 7 = `frame_count + 5` equals seeking it to the clamp target 1. -/
theorem seek_clamps_out_of_range_frames_witness :
    rat_model_update (some c4model) 7 = rat_model_update (some c4model) (lastFrameTarget c4model) :=
  seek_clamps_out_of_range_frames c4model c4anim 7 rfl rfl (by decide) (by decide) (by decide)

/-- Counterexample for C5: `c5model` holds a loaded animation whose recorded
frame count is 7, yet the frame-count query returns 0 (the source also tests
`num_vertices == 0`), refuting the claim that the query returns the recorded
count whenever an animation is loaded and 0 only when none is. -/
theorem frame_count_zero_vertices_cex :
    c5model.animation = some c5anim ∧ c5anim.num_frames = 7 ∧
      rat_model_get_chunk_frame_count (some c5model) = 0 :=
  ⟨rfl, rfl, rfl⟩

/-- C5 (amended): the frame-count query returns the animation's recorded frame
count whenever an animation is loaded and its vertex count is nonzero; it
returns 0 when the handle is null, when no animation record is present, or
when the loaded animation has zero vertices (even if its recorded frame count
is nonzero). -/
theorem frame_count_amended :
    rat_model_get_chunk_frame_count none = 0 ∧
      (∀ m : RatModel, m.animation = none → rat_model_get_chunk_frame_count (some m) = 0) ∧
      (∀ (m : RatModel) (anim : RatAnimation), m.animation = some anim →
        anim.num_vertices ≠ 0 → rat_model_get_chunk_frame_count (some m) = anim.num_frames) ∧
      (∀ (m : RatModel) (anim : RatAnimation), m.animation = some anim →
        anim.num_vertices = 0 → rat_model_get_chunk_frame_count (some m) = 0) := by
  refine ⟨rfl, ?_, ?_, ?_⟩
  · intro m hm
    simp [rat_model_get_chunk_frame_count, hm]
  · intro m anim hm h0
    simp [rat_model_get_chunk_frame_count, hm, h0]
  · intro m anim hm h0
    simp [rat_model_get_chunk_frame_count, hm, h0]

/-- Witness for C5 (amended): the query on `c4model` returns the recorded
count 2, and on the zero-vertex `c5model` returns 0. -/
theorem frame_count_amended_witness :
    rat_model_get_chunk_frame_count (some c4model) = c4anim.num_frames ∧
      rat_model_get_chunk_frame_count (some c5model) = 0 :=
  ⟨frame_count_amended.2.2.1 c4model c4anim rfl (by decide),
    frame_count_amended.2.2.2 c5model c5anim rfl rfl⟩

/-- C6 (evaluation at the failing input): both parsers accept headers whose
declared filename length is unchecked — `c6buf` parses successfully although
its declared mesh-filename length (300) exceeds the 256-byte destination field
(the source writes the terminating NUL at index 300) and the declared region
`offset + length` runs past the end of the 64-byte buffer; likewise `c6meshbuf`
for the texture filename. -/
theorem filename_length_unchecked_overflow :
    parseOk (load_rat_animation c6buf) = true ∧
      readU32 c6buf 28 = 300 ∧ c6buf.length = 64 ∧ readU32 c6buf 24 = 64 ∧
      256 < readU32 c6buf 28 + 1 ∧ c6buf.length < readU32 c6buf 24 + readU32 c6buf 28 ∧
      parseOk (load_rat_mesh_data c6meshbuf) = true ∧
      readU32 c6meshbuf 28 = 300 ∧ c6meshbuf.length = 48 ∧ readU32 c6meshbuf 24 = 48 ∧
      256 < readU32 c6meshbuf 28 + 1 ∧
      c6meshbuf.length < readU32 c6meshbuf 24 + readU32 c6meshbuf 28 := by
  decide

/-- C7: for every input buffer, each parser fails with `Truncated` when the
buffer is shorter than its fixed header (64 bytes for the animation chunk,
48 for the static mesh) and with `BadMagic` when the buffer is at least
header-sized but the magic at offset 0 is not the expected constant; no record
is produced in either case. -/
theorem parsers_reject_truncated_and_bad_magic (bytes : List Nat) :
    (bytes.length < 64 → load_rat_animation bytes = .error .Truncated) ∧
      (64 ≤ bytes.length → readU32 bytes 0 ≠ RAT3_MAGIC →
        load_rat_animation bytes = .error .BadMagic) ∧
      (bytes.length < 48 → load_rat_mesh_data bytes = .error .Truncated) ∧
      (48 ≤ bytes.length → readU32 bytes 0 ≠ RATM_MAGIC →
        load_rat_mesh_data bytes = .error .BadMagic) := by
  refine ⟨fun h => ?_, fun h hm => ?_, fun h => ?_, fun h hm => ?_⟩
  · unfold load_rat_animation
    rw [if_pos h]
  · unfold load_rat_animation
    rw [if_neg (by omega), if_pos hm]
  · unfold load_rat_mesh_data
    rw [if_pos h]
  · unfold load_rat_mesh_data
    rw [if_neg (by omega), if_pos hm]

/-- Witness for C7: the empty buffer is `Truncated` for both parsers, and a
64-byte all-zero buffer (wrong magic) is `BadMagic` for both. -/
theorem parsers_reject_truncated_and_bad_magic_witness :
    load_rat_animation [] = .error .Truncated ∧
      load_rat_animation (List.replicate 64 0) = .error .BadMagic ∧
      load_rat_mesh_data [] = .error .Truncated ∧
      load_rat_mesh_data (List.replicate 64 0) = .error .BadMagic :=
  ⟨(parsers_reject_truncated_and_bad_magic []).1 (by norm_num),
    (parsers_reject_truncated_and_bad_magic (List.replicate 64 0)).2.1 (by simp) (by decide),
    (parsers_reject_truncated_and_bad_magic []).2.2.1 (by norm_num),
    (parsers_reject_truncated_and_bad_magic (List.replicate 64 0)).2.2.2 (by simp) (by decide)⟩

/-- Counterexample for C8: on `c8anim` (raw base frame, `max_x = min_x`) the
base-frame quantization performs a division whose divisor is zero, refuting
the claim that reconstruction never divides by zero on a degenerate axis. -/
theorem degenerate_bounds_division_by_zero_cex :
    c8anim.max_x = c8anim.min_x ∧ c8anim.is_first_frame_raw = true ∧
      (0 : ℚ) ∈ quantizationDivisors c8anim := by
  refine ⟨rfl, rfl, ?_⟩
  norm_num [quantizationDivisors, c8anim]

/-- C8 (amended): when the base frame is pre-quantized, seeding performs no
division at all, so a degenerate bounding box is harmless; de-quantization
always divides by the constant 255 only; but when the base frame is raw and
`max = min` on an axis, the seed quantization of every vertex performs a
division by zero on that axis — there is no degenerate-axis policy in the
code. -/
theorem degenerate_bounds_amended :
    (∀ anim : RatAnimation, anim.is_first_frame_raw = false →
      quantizationDivisors anim = []) ∧
      (∀ anim : RatAnimation, (0 : ℚ) ∉ dequantizationDivisors anim) ∧
      (∀ anim : RatAnimation, anim.is_first_frame_raw = true → 0 < anim.num_vertices →
        anim.max_x = anim.min_x → (0 : ℚ) ∈ quantizationDivisors anim) := by
  refine ⟨?_, ?_, ?_⟩
  · intro anim h
    simp [quantizationDivisors, h]
  · intro anim hmem
    simp only [dequantizationDivisors, List.mem_flatMap] at hmem
    obtain ⟨i, _, hmem⟩ := hmem
    simp at hmem
  · intro anim hraw hnv hdeg
    simp only [quantizationDivisors, if_pos hraw, List.mem_flatMap]
    exact ⟨0, by simpa using hnv, by simp [sub_eq_zero, hdeg]⟩

/-- Witness for C8 (amended): the pre-quantized `c1anim` divides by nothing
while seeding, and the degenerate raw-base `c8anim` divides by zero. -/
theorem degenerate_bounds_amended_witness :
    quantizationDivisors c1anim = [] ∧ (0 : ℚ) ∈ quantizationDivisors c8anim :=
  ⟨degenerate_bounds_amended.1 c1anim rfl,
    degenerate_bounds_amended.2.2 c8anim rfl (by decide) rfl⟩

end RatHandler
